import Mathlib

/-!
Shallow embedding of `src/rag_modules/data_preparation.py`
(`DataPreparationModule`): the metadata enricher `_enhance_metadata`,
the hierarchical splitter `_markdown_header_split` / `chunk_documents`,
and the parent aggregator `get_parent_documents`, together with proofs
settling the specification claims about them.

Modelling conventions:
* Python `str`/`int` metadata values become `MetaVal`.
* A Python `dict` becomes an insertion-ordered association list:
  assignment overwrites in place (keeping the position of the key) or
  appends a fresh key at the end, exactly like a CPython `dict`.
* A raised Python exception becomes `Except.error` carrying the
  exception's class name; a function body that falls off the end
  (returning Python `None`) becomes `Option.none` inside `Except.ok`.
* `uuid.uuid4()` is modelled by a deterministic fresh-id supply
  (a counter threaded through the state); no claim depends on the
  statistical properties of the ids, only on their being freshly drawn.
* The external `MarkdownHeaderTextSplitter` is a parameter
  `split : String → List Doc`, as the spec treats it as a black box.
-/

inductive MetaVal where
  | str (s : String)
  | nat (n : Nat)
deriving DecidableEq, Repr

/-- A Python `dict[str, ...]` used as a metadata map: an
insertion-ordered association list. -/
abbrev Meta := List (String × MetaVal)

/-- Lookup, `m.get(k)` / `m[k]`: first entry whose key matches. -/
def Meta.get : Meta → String → Option MetaVal
  | [], _ => none
  | p :: ps, k => if p.1 = k then some p.2 else Meta.get ps k

/-- Assignment `m[k] = v`: overwrite in place if the key is present
(keeping its position), otherwise append at the end — CPython `dict`
update semantics. -/
def Meta.set : Meta → String → MetaVal → Meta
  | [], k, v => [(k, v)]
  | p :: ps, k, v => if p.1 = k then (k, v) :: ps else p :: Meta.set ps k v

/-- `m.update(patch)`: assign every entry of `patch` into `m`, in order. -/
def Meta.update : Meta → Meta → Meta
  | m, [] => m
  | m, p :: ps => Meta.update (Meta.set m p.1 p.2) ps

/-- A langchain `Document`: page content plus a metadata map. -/
structure Doc where
  page_content : String
  metadata : Meta
deriving DecidableEq, Repr

/-- The mutable state of a `DataPreparationModule` instance (the
`data_path` field only feeds the loader, which is filesystem-bound and
out of scope for the claims). -/
structure Pipeline where
  documents : List Doc
  chunks : List Doc
  parent_child_map : List (String × MetaVal)
deriving DecidableEq, Repr

/-- Deterministic stand-in for `str(uuid.uuid4())`. -/
def mkId (n : Nat) : String := "id-" ++ toString n


/-!
## The metadata enricher `_enhance_metadata`

`Path(doc.metadata.get("source", "")).parts` / `.stem` are modelled on
POSIX paths: `parts` is the list of non-empty `/`-separated segments
(the leading `/` anchor of an absolute path is dropped — it can never
equal a category token, so category inference is unaffected), and
`stem` is the final segment without its last extension.
-/

/-- Split a char list at every occurrence of `sep` (pieces in order,
separators dropped; mirrors `str.split(sep)`). -/
def splitChars (sep : Char) : List Char → List (List Char)
  | [] => [[]]
  | c :: t =>
    if c = sep then [] :: splitChars sep t
    else
      match splitChars sep t with
      | [] => [[c]]
      | g :: gs => (c :: g) :: gs

def pathParts (s : String) : List String :=
  ((splitChars '/' s.data).map String.mk).filter (fun p => p ≠ "")

/-- `"." .join(pieces)`. -/
def joinDots : List String → String
  | [] => ""
  | [p] => p
  | p :: ps => p ++ "." ++ joinDots ps

def stemOf (s : String) : String :=
  let base := (pathParts s).getLastD ""
  let pieces := (splitChars '.' base.data).map String.mk
  match pieces with
  | [] => base
  | [_] => base
  | p :: ps => if p = "" ∧ ps.length = 1 then base
               else joinDots pieces.dropLast

/-- `doc.metadata.get("source", "")`.  The loader only ever stores a
string under `"source"`; a non-string value would make `Path(...)`
raise in Python and is modelled as the empty path (claims about the
enricher carry the corresponding string-or-absent hypothesis where
the value of the result matters). -/
def sourceStr (m : Meta) : String :=
  match Meta.get m "source" with
  | some (.str s) => s
  | _ => ""

/-- The `category_mapping` dict literal, in its source order. -/
def category_mapping : List (String × String) :=
  [("meat_dish", "荤菜"), ("vegetable", "素菜"), ("soup", "汤品"),
   ("desert", "甜品"), ("breakfast", "早餐"), ("staple", "主食"),
   ("squatic", "水产"), ("condiment", "调料"), ("drink", "饮品")]

/-- The loop `for key, value in category_mapping.items(): if key in
path_parts: doc.metadata["category"] = value; break`. -/
def categoryLoop : List (String × String) → Meta → List String → Meta
  | [], m, _ => m
  | (k, v) :: rest, m, path_parts =>
    if path_parts.contains k then Meta.set m "category" (.str v)
    else categoryLoop rest m path_parts

/-- Python's substring test `pat in s`, on the underlying char lists. -/
def pyInChars (pat : List Char) : List Char → Bool
  | [] => pat.isEmpty
  | c :: t => pat.isPrefixOf (c :: t) || pyInChars pat t

def pyIn (pat s : String) : Bool := pyInChars pat.data s.data

/-- The `if "★★★★★" in content: ... elif ... else:` chain of
`_enhance_metadata` (lines 73–84), as the value it stores. -/
def difficultyFromContent (content : String) : String :=
  if pyIn "★★★★★" content then "非常困难"
  else if pyIn "★★★★" content then "困难"
  else if pyIn "★★★" content then "中等"
  else if pyIn "★★" content then "比较简单"
  else if pyIn "★" content then "简单"
  else "难度未知"

/-- `_enhance_metadata`: in-place enrichment of one document's
metadata — category from the path, dish name from the file stem,
difficulty from the longest star-glyph run (tested 5 down to 1 via
substring containment). -/
def enhance_metadata (doc : Doc) : Doc :=
  let file_path := sourceStr doc.metadata
  let path_parts := pathParts file_path
  let m := Meta.set doc.metadata "category" (.str "其他")
  let m := categoryLoop category_mapping m path_parts
  let m := Meta.set m "dish_name" (.str (stemOf file_path))
  let m := Meta.set m "difficulty" (.str (difficultyFromContent doc.page_content))
  { doc with metadata := m }

/-!
## Spec-side definitions for the enricher claims

These follow the specification's words, to be compared with the code
above: the length of the longest run of consecutive `'★'` glyphs, the
difficulty tier that the spec assigns to a given longest-run length,
and the claimed "first matching token in path order" category rule.
-/

/-- Length of the longest leading run of `'★'`. -/
def leadingStars : List Char → Nat
  | [] => 0
  | c :: t => if c = '★' then leadingStars t + 1 else 0

/-- Length of the longest run of consecutive `'★'` anywhere. -/
def maxStarRun : List Char → Nat
  | [] => 0
  | c :: t => max (leadingStars (c :: t)) (maxStarRun t)

/-- Modelled from the spec: the difficulty tier for a given longest
star-run length, "checked from 5 stars down to 1", no star → unknown. -/
def claimDifficultyTier (n : Nat) : String :=
  if 5 ≤ n then "非常困难"
  else if n = 4 then "困难"
  else if n = 3 then "中等"
  else if n = 2 then "比较简单"
  else if n = 1 then "简单"
  else "难度未知"

/-- Modelled from the spec: "the winning category is that of the first
matching token in path order" — scan the path segments in order and
take the category of the first segment that is a known token. -/
def claimCategoryPathOrder (path_parts : List String) : String :=
  match path_parts.find? (fun p =>
      (category_mapping.find? (fun kv => kv.1 == p)).isSome) with
  | some p =>
    match category_mapping.find? (fun kv => kv.1 == p) with
    | some kv => kv.2
    | none => "其他"
  | none => "其他"

/-- The category the code computes: the first entry of
`category_mapping` (in mapping-enumeration order) whose token occurs
among the path segments, defaulting to `"其他"`. -/
def codeCategory (path_parts : List String) : String :=
  match category_mapping.find? (fun kv => path_parts.contains kv.1) with
  | some kv => kv.2
  | none => "其他"

/-!
## The hierarchical splitter `_markdown_header_split` / `chunk_documents`

The external `MarkdownHeaderTextSplitter.split_text` is a parameter
`split : String → List Doc` (fragments carrying their own local header
metadata).  `uuid.uuid4()` is a counter `ctr` threaded through; the
parent-child map is threaded as well.  `doc.metadata["parent_id"]`
raises `KeyError` in Python when the key is absent, modelled with
`Except.error`.
-/

/-- The inner loop `for i, chunk in enumerate(md_chunks): ...` of
`_markdown_header_split`, for one parent document: assign a fresh
`chunk_id`, inherit the parent metadata (`chunk.metadata.update(
doc.metadata)`), then overwrite `chunk_id` / `parent_id` / `doc_type` /
`chunk_index`, and register the pair in `parent_child_map`.  Returns
the processed fragments, the new id counter and the new map. -/
def splitMeta (doc chunk : Doc) (parent_id : MetaVal) (i ctr : Nat) : Meta :=
  Meta.update (Meta.update chunk.metadata doc.metadata)
    [("chunk_id", .str (mkId ctr)), ("parent_id", parent_id),
     ("doc_type", .str "child"), ("chunk_index", .nat i)]

def splitOne (doc : Doc) (parent_id : MetaVal) :
    List Doc → Nat → Nat → List (String × MetaVal) →
    List Doc × Nat × List (String × MetaVal)
  | [], _, ctr, pcm => ([], ctr, pcm)
  | chunk :: rest, i, ctr, pcm =>
    let child_id := mkId ctr
    let m := splitMeta doc chunk parent_id i ctr
    let pcm := pcm ++ [(child_id, parent_id)]
    let (out, ctr', pcm') := splitOne doc parent_id rest (i + 1) (ctr + 1) pcm
    ({ chunk with metadata := m } :: out, ctr', pcm')

/-- `_markdown_header_split`: split every loaded document and collect
`all_chunks` in document order.  A document whose splitter output is
empty contributes nothing (the `enumerate` loop body never runs). -/
def markdown_header_split (split : String → List Doc) :
    List Doc → Nat → List (String × MetaVal) →
    Except String (List Doc × Nat × List (String × MetaVal))
  | [], ctr, pcm => .ok ([], ctr, pcm)
  | doc :: docs, ctr, pcm =>
    let md_chunks := split doc.page_content
    match Meta.get doc.metadata "parent_id" with
    | none => .error "KeyError"
    | some parent_id =>
      let (cs, ctr', pcm') := splitOne doc parent_id md_chunks 0 ctr pcm
      match markdown_header_split split docs ctr' pcm' with
      | .error e => .error e
      | .ok (rest, ctr'', pcm'') => .ok (cs ++ rest, ctr'', pcm'')

/-- The loop `for i, chunk in enumerate(chunks)` of `chunk_documents`:
generate a `chunk_id` when absent, and set `batch_index` and
`chunk_size` (the Python `len` of the content, i.e. its code-point
count, which is `String.length`). -/
def addChunkMeta : List Doc → Nat → Nat → List Doc × Nat
  | [], _, ctr => ([], ctr)
  | chunk :: rest, i, ctr =>
    let (m, ctr') :=
      if (Meta.get chunk.metadata "chunk_id").isSome then
        (chunk.metadata, ctr)
      else
        (Meta.set chunk.metadata "chunk_id" (.str (mkId ctr)), ctr + 1)
    let m := Meta.set m "batch_index" (.nat i)
    let m := Meta.set m "chunk_size" (.nat chunk.page_content.length)
    let (out, ctr'') := addChunkMeta rest (i + 1) ctr'
    ({ chunk with metadata := m } :: out, ctr'')

/-- `chunk_documents`: raise `ValueError` when no document is loaded,
otherwise split, decorate every chunk, store the chunks in the state
and return them. -/
def chunk_documents (split : String → List Doc) (st : Pipeline)
    (ctr : Nat) : Except String (List Doc × Pipeline × Nat) :=
  if st.documents.isEmpty then .error "ValueError: 先加载文档"
  else
    match markdown_header_split split st.documents ctr st.parent_child_map with
    | .error e => .error e
    | .ok (chunks, ctr', pcm') =>
      let (chunks', ctr'') := addChunkMeta chunks 0 ctr'
      .ok (chunks', { st with chunks := chunks', parent_child_map := pcm' }, ctr'')

/-!
## The parent aggregator `get_parent_documents`

The source function is faithfully modelled including its three slips:

* the whole sort-and-return block sits INSIDE the `for chunk in
  child_chunks` loop (under `if parent_id:`), so the function returns
  while handling the first chunk that carries a truthy `parent_id`;
* the cache-filling loop is `for doc in self.parent_child_map:` —
  iterating a Python dict yields its KEYS, which are `str` child ids,
  so evaluating `doc.metadata` raises `AttributeError` as soon as the
  map is non-empty;
* when no chunk has a truthy `parent_id` the function falls off the
  end and returns Python `None`, modelled as `Except.ok none`.
-/

/-- Python truthiness of `chunk.metadata.get("parent_id")`: `None`,
`""` and `0` are falsy, everything else is itself. -/
def truthyVal : Option MetaVal → Option MetaVal
  | some (.str s) => if s = "" then none else some (.str s)
  | some (.nat n) => if n = 0 then none else some (.nat n)
  | none => none

/-- `parent_relevance[parent_id] = parent_relevance.get(parent_id, 0) + 1`:
bump in place when present (keeping dict position), else append with
count 1. -/
def bumpCount (rel : List (MetaVal × Nat)) (pid : MetaVal) :
    List (MetaVal × Nat) :=
  if rel.any (fun p => p.1 == pid) then
    rel.map (fun p => if p.1 == pid then (p.1, p.2 + 1) else p)
  else rel ++ [(pid, 1)]

/-- First-match lookup in an association list over `MetaVal` keys. -/
def lookupBy (assoc : List (MetaVal × Doc)) (pid : MetaVal) : Option Doc :=
  (assoc.find? (fun p => p.1 == pid)).map (fun p => p.2)

/-- Stable insertion for descending-count order: `x` goes after every
already-placed entry whose count is `≥` its own. -/
def insertByCountDesc (x : MetaVal × Nat) :
    List (MetaVal × Nat) → List (MetaVal × Nat)
  | [] => [x]
  | y :: ys => if y.2 ≤ x.2 then x :: y :: ys else y :: insertByCountDesc x ys

/-- `sorted(parent_relevance.keys(), key=lambda x: parent_relevance[x],
reverse=True)`: a stable sort, descending by count, over the keys in
dict (= first-encounter) order. -/
def sortedByCountDesc (rel : List (MetaVal × Nat)) : List (MetaVal × Nat) :=
  rel.foldr insertByCountDesc []

/-- The loop `for doc in self.parent_child_map: if doc.metadata.get(
"parent_id") == parent_id: ...` — the iteration yields the map's KEYS
(`str` child ids), so the first loop iteration evaluates `.metadata`
on a `str` and raises `AttributeError`; over an empty map the loop
body never runs and nothing is found. -/
def findParentDocByScan (pcmKeys : List String) : Except String (Option Doc) :=
  match pcmKeys with
  | [] => .ok none
  | _ :: _ => .error "AttributeError"

/-- The body of `get_parent_documents`: one pass over `child_chunks`
carrying `parent_relevance` and `parent_docs_map`.  Reaching the end
of the list models Python falling off the end of the function
(returning `None`). -/
def gpdLoop (pcm : List (String × MetaVal)) :
    List Doc → List (MetaVal × Nat) → List (MetaVal × Doc) →
    Except String (Option (List Doc))
  | [], _, _ => .ok none
  | chunk :: rest, parent_relevance, parent_docs_map =>
    match truthyVal (Meta.get chunk.metadata "parent_id") with
    | none => gpdLoop pcm rest parent_relevance parent_docs_map
    | some parent_id =>
      let parent_relevance := bumpCount parent_relevance parent_id
      match (if (lookupBy parent_docs_map parent_id).isNone then
               findParentDocByScan (pcm.map Prod.fst)
             else .ok none) with
      | .error e => .error e
      | .ok found =>
        let parent_docs_map :=
          match found with
          | some d => parent_docs_map ++ [(parent_id, d)]
          | none => parent_docs_map
        let sorted_parent_ids :=
          (sortedByCountDesc parent_relevance).map Prod.fst
        let parent_doc :=
          sorted_parent_ids.filterMap (fun pid => lookupBy parent_docs_map pid)
        .ok (some parent_doc)

/-- `get_parent_documents(child_chunks)`. -/
def get_parent_documents (st : Pipeline) (child_chunks : List Doc) :
    Except String (Option (List Doc)) :=
  gpdLoop st.parent_child_map child_chunks [] []

/-!
## Concrete fixtures

Small concrete documents and pipeline states used by the witnesses,
counterexamples and failing-input evaluations below.
-/

/-- A fresh pipeline: nothing loaded, nothing split. -/
def emptyState : Pipeline := ⟨[], [], []⟩

/-- Claim C1 fixture: a state whose parent-child index holds one entry,
and three retrieval hits — two resolving to parent `P1`, one to `P2`. -/
def c1State : Pipeline := ⟨[], [], [("child-1", MetaVal.str "P1")]⟩

def c1Hit1 : Doc := ⟨"hit 1", [("parent_id", MetaVal.str "P1")]⟩

def c1Hit2 : Doc := ⟨"hit 2", [("parent_id", MetaVal.str "P1")]⟩

def c1Hit3 : Doc := ⟨"hit 3", [("parent_id", MetaVal.str "P2")]⟩

/-- Claim C2 fixture: a non-empty index and one section whose
`parent_id` does not resolve in it. -/
def c2State : Pipeline := ⟨[], [], [("child-9", MetaVal.str "P1")]⟩

def c2Hit : Doc := ⟨"stray hit", [("parent_id", MetaVal.str "PX")]⟩

/-- Claim C4 fixture: one loaded parent document whose content the
external splitter turns into zero fragments (e.g. empty content). -/
def c4Doc : Doc :=
  ⟨"", [("source", MetaVal.str "soup/empty.md"),
        ("parent_id", MetaVal.str "P1"),
        ("doc_type", MetaVal.str "parent")]⟩

def c4State : Pipeline := ⟨[c4Doc], [], []⟩

/-- Claim C5 fixture: a source path containing two category tokens,
`soup` before `meat_dish` in path order. -/
def c5Doc : Doc :=
  ⟨"", [("source", MetaVal.str "soup/meat_dish/x.md"),
        ("parent_id", MetaVal.str "P1"),
        ("doc_type", MetaVal.str "parent")]⟩

/-- Claim C5 witness fixture: a single-token path. -/
def c5wDoc : Doc :=
  ⟨"content", [("source", MetaVal.str "drink/tea.md"),
               ("parent_id", MetaVal.str "P2"),
               ("doc_type", MetaVal.str "parent")]⟩

/-- Claim C6 fixture: a loader-shaped parent document and one fragment
returned for it by the external splitter. -/
def c6Doc : Doc :=
  ⟨"body", [("source", MetaVal.str "s.md"),
            ("parent_id", MetaVal.str "P1"),
            ("doc_type", MetaVal.str "parent")]⟩

def c6Frag : Doc := ⟨"fragment", []⟩

/-- The section the splitter produces for `c6Frag` under `c6Doc`. -/
def c6Chunk : Doc :=
  ⟨"fragment", splitMeta c6Doc c6Frag (MetaVal.str "P1") 0 0⟩

/-- Claim C8 fixture: a retrieval hit handed to the aggregator while
no document has been loaded. -/
def c8Hit : Doc := ⟨"orphan hit", [("parent_id", MetaVal.str "P9")]⟩

/-- Claim C10 witness fixture. -/
def c10Doc : Doc :=
  ⟨"★★★", [("source", MetaVal.str "vegetable/tofu.md"),
           ("parent_id", MetaVal.str "P3"),
           ("doc_type", MetaVal.str "parent")]⟩

section MetaLemmas

theorem Meta.get_set_self (m : Meta) (k : String) (v : MetaVal) :
    Meta.get (Meta.set m k v) k = some v := by
  induction m with
  | nil => simp [Meta.set, Meta.get]
  | cons p ps ih =>
    by_cases h : p.1 = k
    · simp [Meta.set, h, Meta.get]
    · simp [Meta.set, h, Meta.get, ih]

theorem Meta.get_set_ne (m : Meta) (k k' : String) (v : MetaVal)
    (h : k' ≠ k) : Meta.get (Meta.set m k v) k' = Meta.get m k' := by
  induction m with
  | nil => simp [Meta.set, Meta.get, Ne.symm h]
  | cons p ps ih =>
    by_cases hp : p.1 = k
    · subst hp
      simp [Meta.set, Meta.get, Ne.symm h]
    · by_cases hp' : p.1 = k'
      · simp [Meta.set, hp, Meta.get, hp', h]
      · simp [Meta.set, hp, Meta.get, hp', ih]

theorem Meta.get_update_not_mem (m patch : Meta) (k : String)
    (h : ∀ p ∈ patch, p.1 ≠ k) :
    Meta.get (Meta.update m patch) k = Meta.get m k := by
  induction patch generalizing m with
  | nil => rfl
  | cons p ps ih =>
    have hp : p.1 ≠ k := h p (List.mem_cons_self p ps)
    have hps : ∀ q ∈ ps, q.1 ≠ k := fun q hq => h q (List.mem_cons_of_mem p hq)
    calc Meta.get (Meta.update (Meta.set m p.1 p.2) ps) k
        = Meta.get (Meta.set m p.1 p.2) k := ih _ hps
      _ = Meta.get m k := Meta.get_set_ne m p.1 k p.2 (Ne.symm hp)

/-- A key looked up successfully after `update` with the full parent map:
when the parent map has no duplicate keys, the parent's value wins. -/
theorem Meta.get_update_of_get (m patch : Meta) (k : String) (v : MetaVal)
    (hnd : (patch.map Prod.fst).Nodup) (hget : Meta.get patch k = some v) :
    Meta.get (Meta.update m patch) k = some v := by
  induction patch generalizing m with
  | nil => simp [Meta.get] at hget
  | cons p ps ih =>
    rw [List.map_cons] at hnd
    have hnd' : (ps.map Prod.fst).Nodup := (List.nodup_cons.mp hnd).2
    by_cases hp : p.1 = k
    · have hv : p.2 = v := by
        have := hget
        simp only [Meta.get, if_pos hp] at this
        exact Option.some.inj this
      have hk : ∀ q ∈ ps, q.1 ≠ k := by
        intro q hq hqk
        have hm : q.1 ∈ ps.map Prod.fst := List.mem_map.mpr ⟨q, hq, rfl⟩
        rw [hqk, ← hp] at hm
        exact (List.nodup_cons.mp hnd).1 hm
      calc Meta.get (Meta.update (Meta.set m p.1 p.2) ps) k
          = Meta.get (Meta.set m p.1 p.2) k := Meta.get_update_not_mem _ _ _ hk
        _ = some v := by rw [hp, hv]; exact Meta.get_set_self m k v
    · have hget' : Meta.get ps k = some v := by
        have := hget
        simpa only [Meta.get, if_neg hp] using this
      show Meta.get (Meta.update (Meta.set m p.1 p.2) ps) k = some v
      exact ih (Meta.set m p.1 p.2) hnd' hget'

end MetaLemmas

/-!
## Supporting lemmas
-/

theorem replicate_star_isPrefixOf (k : Nat) (l : List Char) :
    (List.replicate k '★').isPrefixOf l = true ↔ k ≤ leadingStars l := by
  induction k generalizing l with
  | zero => simp [List.isPrefixOf]
  | succ n ih =>
    cases l with
    | nil =>
      have h0 : leadingStars [] = 0 := rfl
      simp [List.replicate, List.isPrefixOf, h0]
    | cons c t =>
      by_cases hc : c = '★'
      · subst hc
        simp [List.replicate, List.isPrefixOf, leadingStars, ih,
          Nat.succ_le_succ_iff]
      · simp [List.replicate, List.isPrefixOf, leadingStars, hc,
          Ne.symm hc]

theorem pyInChars_replicate_star (l : List Char) (k : Nat) :
    pyInChars (List.replicate k '★') l = true ↔ k ≤ maxStarRun l := by
  induction l with
  | nil =>
    cases k <;> simp [pyInChars, maxStarRun, List.replicate, List.isEmpty]
  | cons c t ih =>
    simp only [pyInChars, Bool.or_eq_true, maxStarRun]
    rw [replicate_star_isPrefixOf, ih]
    omega

theorem pyIn_stars (content : String) (k : Nat) (pat : String)
    (hpat : pat.data = List.replicate k '★') :
    pyIn pat content = true ↔ k ≤ maxStarRun content.data := by
  unfold pyIn
  rw [hpat]
  exact pyInChars_replicate_star content.data k

theorem difficultyFromContent_eq (content : String) :
    difficultyFromContent content
      = claimDifficultyTier (maxStarRun content.data) := by
  have h5 := pyIn_stars content 5 "★★★★★" rfl
  have h4 := pyIn_stars content 4 "★★★★" rfl
  have h3 := pyIn_stars content 3 "★★★" rfl
  have h2 := pyIn_stars content 2 "★★" rfl
  have h1 := pyIn_stars content 1 "★" rfl
  unfold difficultyFromContent claimDifficultyTier
  by_cases g5 : 5 ≤ maxStarRun content.data
  · rw [if_pos (h5.mpr g5), if_pos g5]
  · rw [if_neg (fun hh => g5 (h5.mp hh)), if_neg g5]
    by_cases g4 : 4 ≤ maxStarRun content.data
    · have e4 : maxStarRun content.data = 4 := by omega
      rw [if_pos (h4.mpr g4), if_pos e4]
    · have e4 : ¬(maxStarRun content.data = 4) := by omega
      rw [if_neg (fun hh => g4 (h4.mp hh)), if_neg e4]
      by_cases g3 : 3 ≤ maxStarRun content.data
      · have e3 : maxStarRun content.data = 3 := by omega
        rw [if_pos (h3.mpr g3), if_pos e3]
      · have e3 : ¬(maxStarRun content.data = 3) := by omega
        rw [if_neg (fun hh => g3 (h3.mp hh)), if_neg e3]
        by_cases g2 : 2 ≤ maxStarRun content.data
        · have e2 : maxStarRun content.data = 2 := by omega
          rw [if_pos (h2.mpr g2), if_pos e2]
        · have e2 : ¬(maxStarRun content.data = 2) := by omega
          rw [if_neg (fun hh => g2 (h2.mp hh)), if_neg e2]
          by_cases g1 : 1 ≤ maxStarRun content.data
          · have e1 : maxStarRun content.data = 1 := by omega
            rw [if_pos (h1.mpr g1), if_pos e1]
          · have e1 : ¬(maxStarRun content.data = 1) := by omega
            rw [if_neg (fun hh => g1 (h1.mp hh)), if_neg e1]

theorem categoryLoop_get_category (mp : List (String × String))
    (m : Meta) (parts : List String) :
    Meta.get (categoryLoop mp m parts) "category"
      = match mp.find? (fun kv => parts.contains kv.1) with
        | some kv => some (.str kv.2)
        | none => Meta.get m "category" := by
  induction mp generalizing m with
  | nil => rfl
  | cons kv rest ih =>
    obtain ⟨k, v⟩ := kv
    by_cases h : parts.contains k = true
    · have hmem : k ∈ parts := by simpa using h
      have hfind : List.find? (fun kv => parts.contains kv.1) ((k, v) :: rest)
          = some (k, v) := by
        simp [List.find?, hmem]
      rw [hfind]
      simp only [categoryLoop, if_pos h]
      exact Meta.get_set_self m "category" (.str v)
    · have hmem : k ∉ parts := by simpa using h
      have hfind : List.find? (fun kv => parts.contains kv.1) ((k, v) :: rest)
          = List.find? (fun kv => parts.contains kv.1) rest := by
        simp [List.find?, hmem]
      rw [hfind]
      simp only [categoryLoop, if_neg h]
      exact ih m

theorem categoryLoop_get_ne (mp : List (String × String)) (m : Meta)
    (parts : List String) (k : String) (hk : k ≠ "category") :
    Meta.get (categoryLoop mp m parts) k = Meta.get m k := by
  induction mp generalizing m with
  | nil => rfl
  | cons kv rest ih =>
    obtain ⟨key, v⟩ := kv
    by_cases h : parts.contains key = true
    · simp only [categoryLoop, if_pos h]
      exact Meta.get_set_ne m "category" k (.str v) hk
    · simp only [categoryLoop, if_neg h]
      exact ih m

theorem splitOne_cons (doc : Doc) (pid : MetaVal) (f : Doc)
    (fs : List Doc) (i ctr : Nat) (pcm : List (String × MetaVal)) :
    splitOne doc pid (f :: fs) i ctr pcm
      = ({ f with metadata := splitMeta doc f pid i ctr }
          :: (splitOne doc pid fs (i + 1) (ctr + 1) (pcm ++ [(mkId ctr, pid)])).1,
         (splitOne doc pid fs (i + 1) (ctr + 1) (pcm ++ [(mkId ctr, pid)])).2.1,
         (splitOne doc pid fs (i + 1) (ctr + 1) (pcm ++ [(mkId ctr, pid)])).2.2) := rfl

theorem splitMeta_nodup_patch (pid : MetaVal) (i ctr : Nat) :
    (([("chunk_id", MetaVal.str (mkId ctr)), ("parent_id", pid),
       ("doc_type", MetaVal.str "child"), ("chunk_index", MetaVal.nat i)] :
        Meta).map Prod.fst).Nodup := by
  show (["chunk_id", "parent_id", "doc_type", "chunk_index"] : List String).Nodup
  decide

theorem splitMeta_get_chunk_index (doc chunk : Doc) (pid : MetaVal)
    (i ctr : Nat) :
    Meta.get (splitMeta doc chunk pid i ctr) "chunk_index"
      = some (.nat i) := by
  unfold splitMeta
  exact Meta.get_update_of_get _ _ _ _ (splitMeta_nodup_patch pid i ctr) rfl

theorem splitOne_map_chunk_index (doc : Doc) (pid : MetaVal)
    (frags : List Doc) :
    ∀ (i ctr : Nat) (pcm : List (String × MetaVal)),
    (splitOne doc pid frags i ctr pcm).1.map
        (fun c => Meta.get c.metadata "chunk_index")
      = (List.range' i frags.length).map (fun j => some (.nat j)) := by
  induction frags with
  | nil => intro i ctr pcm; rfl
  | cons f fs ih =>
    intro i ctr pcm
    rw [splitOne_cons]
    simp only [List.length_cons, List.range'_succ, List.map_cons]
    rw [splitMeta_get_chunk_index, ih]

theorem addChunkMeta_preserves (cs : List Doc) (k : String)
    (hk : k ≠ "chunk_id" ∧ k ≠ "batch_index" ∧ k ≠ "chunk_size") :
    ∀ (i ctr : Nat),
    (addChunkMeta cs i ctr).1.map (fun c => Meta.get c.metadata k)
      = cs.map (fun c => Meta.get c.metadata k) := by
  induction cs with
  | nil => intro i ctr; rfl
  | cons c rest ih =>
    intro i ctr
    simp only [addChunkMeta, List.map_cons]
    by_cases h : (Meta.get c.metadata "chunk_id").isSome
    · simp only [if_pos h]
      rw [Meta.get_set_ne _ _ _ _ hk.2.2, Meta.get_set_ne _ _ _ _ hk.2.1, ih]
    · simp only [if_neg h]
      rw [Meta.get_set_ne _ _ _ _ hk.2.2, Meta.get_set_ne _ _ _ _ hk.2.1,
          Meta.get_set_ne _ _ _ _ hk.1, ih]

theorem splitMeta_get_inherited (doc chunk : Doc) (pid : MetaVal)
    (i ctr : Nat) (k : String) (v : MetaVal)
    (hnd : (doc.metadata.map Prod.fst).Nodup)
    (hpid : Meta.get doc.metadata "parent_id" = some pid)
    (hk : ¬(k = "chunk_id" ∨ k = "doc_type" ∨ k = "chunk_index"))
    (hv : Meta.get doc.metadata k = some v) :
    Meta.get (splitMeta doc chunk pid i ctr) k = some v := by
  push_neg at hk
  obtain ⟨hk1, hk2, hk3⟩ := hk
  unfold splitMeta
  by_cases hp : k = "parent_id"
  · subst hp
    have hvp : v = pid := by
      rw [hv] at hpid
      exact Option.some.inj hpid
    rw [hvp]
    exact Meta.get_update_of_get _ _ _ _ (splitMeta_nodup_patch pid i ctr) rfl
  · have hnm : ∀ p ∈ ([("chunk_id", MetaVal.str (mkId ctr)), ("parent_id", pid),
        ("doc_type", MetaVal.str "child"), ("chunk_index", MetaVal.nat i)] :
          Meta), p.1 ≠ k := by
      intro p hp'
      rcases List.mem_cons.mp hp' with he | hp'
      · subst he; exact Ne.symm hk1
      rcases List.mem_cons.mp hp' with he | hp'
      · subst he; exact Ne.symm hp
      rcases List.mem_cons.mp hp' with he | hp'
      · subst he; exact Ne.symm hk2
      rcases List.mem_cons.mp hp' with he | hp'
      · subst he; exact Ne.symm hk3
      · cases hp'
    rw [Meta.get_update_not_mem _ _ _ hnm]
    exact Meta.get_update_of_get _ _ _ _ hnd hv

/-!
## Claim theorems
-/

/-- Claim C1 (the code refutes it): at the claim's own canonical example —
three matched sections, two resolving to parent `P1` and one to `P2`, with
a non-empty parent-child index — `get_parent_documents` does not return the
ranked parent list `[P1, P2]`: its parent-caching loop iterates the
parent-child map itself, which yields the map's string keys, and
dereferencing `.metadata` on a `str` raises `AttributeError` while the very
first chunk is being handled (the sort-and-return block also sits inside
the scanning loop, so even without the crash the scan would end at the
first chunk). -/
theorem aggregator_raises_on_ranked_example :
    get_parent_documents c1State [c1Hit1, c1Hit2, c1Hit3]
      = .error "AttributeError" := rfl

/-- Claim C2 (the code refutes it): a section whose `parent_id` does not
resolve in the non-empty parent-child index is not skipped silently —
it still receives a relevance vote, and the cache-lookup loop then raises
`AttributeError` instead of completing the call. -/
theorem aggregator_raises_on_unresolvable_parent :
    get_parent_documents c2State [c2Hit] = .error "AttributeError" := rfl

/-- Claim C3 (the code refutes it): on an empty collection of sections
`get_parent_documents` falls off the end of the function and returns
Python `None` (modelled `Except.ok none`) for every pipeline state — not
the empty list the specification promises (the intended dedented
`return parent_doc` would have produced `[]`). -/
theorem aggregator_empty_input_returns_none (st : Pipeline) :
    get_parent_documents st [] = .ok none := rfl

/-- Claim C4 (the code refutes it): when the external splitter returns
zero fragments for a loaded document, `chunk_documents` succeeds with an
empty chunk list: the document is silently dropped from the section set
and no whole-content fallback section with a fresh identity is created. -/
theorem zero_fragment_document_dropped :
    chunk_documents (fun _ => []) c4State 0 = .ok ([], c4State, 0) := rfl

/-- Claim C5 counterexample: for the path `soup/meat_dish/x.md` the first
matching token in PATH order is `soup`, whose category is `汤品`, but the
code assigns `荤菜`: its loop follows the `category_mapping` enumeration
order, in which `meat_dish` comes first. -/
theorem category_not_path_order_cex :
    Meta.get (enhance_metadata c5Doc).metadata "category"
      = some (MetaVal.str "荤菜")
    ∧ claimCategoryPathOrder (pathParts "soup/meat_dish/x.md") = "汤品"
    ∧ ¬("荤菜" = "汤品") := ⟨by decide, by decide, by decide⟩

/-- Claim C5 (amended): category inference is deterministic and total —
for every document whose `source` metadata holds a string path, enrichment
assigns exactly one category, namely that of the first matching token in
MAPPING-ENUMERATION order (`meat_dish, vegetable, soup, desert, breakfast,
staple, squatic, condiment, drink`), and the default label `其他` when no
path segment matches — never an absent category. -/
theorem category_total_mapping_order (doc : Doc) (s : String)
    (hsrc : Meta.get doc.metadata "source" = some (MetaVal.str s)) :
    Meta.get (enhance_metadata doc).metadata "category"
      = some (MetaVal.str (codeCategory (pathParts s))) := by
  have hs : sourceStr doc.metadata = s := by
    unfold sourceStr
    rw [hsrc]
  simp only [enhance_metadata, hs]
  rw [Meta.get_set_ne _ _ _ _ (by decide), Meta.get_set_ne _ _ _ _ (by decide),
      categoryLoop_get_category]
  unfold codeCategory
  cases hf : List.find? (fun kv => (pathParts s).contains kv.1) category_mapping with
  | none => exact Meta.get_set_self _ _ _
  | some kv => rfl

/-- Witness for `category_total_mapping_order` at the concrete document
`c5wDoc` (source path `drink/tea.md`). -/
theorem category_total_mapping_order_witness :
    Meta.get c5wDoc.metadata "source" = some (MetaVal.str "drink/tea.md")
    ∧ Meta.get (enhance_metadata c5wDoc).metadata "category"
        = some (MetaVal.str (codeCategory (pathParts "drink/tea.md"))) :=
  ⟨rfl, category_total_mapping_order c5wDoc "drink/tea.md" rfl⟩

/-- Claim C6 counterexample: the section produced from `c6Doc` carries
`doc_type = "child"`, while the parent's metadata at split time holds
`doc_type = "parent"` — so the section's metadata does NOT equal the
parent's for every key present in the parent. -/
theorem section_doc_type_not_inherited_cex :
    (splitOne c6Doc (MetaVal.str "P1") [c6Frag] 0 0 []).1.map
        (fun c => Meta.get c.metadata "doc_type")
      = [some (MetaVal.str "child")]
    ∧ Meta.get c6Doc.metadata "doc_type" = some (MetaVal.str "parent")
    ∧ ¬(MetaVal.str "child" = MetaVal.str "parent") := ⟨rfl, rfl, by decide⟩

/-- Claim C6 (amended): for every key present in the parent document's
metadata at split time other than the section-owned keys `chunk_id`,
`doc_type` (overwritten to `"child"`) and `chunk_index`, every section
produced from that document carries exactly the parent's value — and the
inheritance is an independent by-value copy taken at split time, so the
section's metadata is fully determined by the parent's metadata as it was
then (`Meta.update` copies the entries; later changes to either map are
new values that cannot affect the other). -/
theorem section_metadata_inheritance (doc : Doc) (pid : MetaVal)
    (frags : List Doc) (i ctr : Nat) (pcm : List (String × MetaVal))
    (k : String) (v : MetaVal)
    (hnd : (doc.metadata.map Prod.fst).Nodup)
    (hpid : Meta.get doc.metadata "parent_id" = some pid)
    (hk : ¬(k = "chunk_id" ∨ k = "doc_type" ∨ k = "chunk_index"))
    (hv : Meta.get doc.metadata k = some v) :
    ∀ c ∈ (splitOne doc pid frags i ctr pcm).1,
      Meta.get c.metadata k = some v := by
  induction frags generalizing i ctr pcm with
  | nil =>
    intro c hc
    simp [splitOne] at hc
  | cons f fs ih =>
    intro c hc
    rw [splitOne_cons] at hc
    rcases List.mem_cons.mp hc with he | hm
    · subst he
      exact splitMeta_get_inherited doc f pid i ctr k v hnd hpid hk hv
    · exact ih (i + 1) (ctr + 1) _ c hm

/-- Witness for `section_metadata_inheritance`: the single section built
from `c6Doc` inherits the parent's `source` value. -/
theorem section_metadata_inheritance_witness :
    ((c6Doc.metadata.map Prod.fst).Nodup
      ∧ Meta.get c6Doc.metadata "parent_id" = some (MetaVal.str "P1")
      ∧ ¬("source" = "chunk_id" ∨ "source" = "doc_type" ∨ "source" = "chunk_index")
      ∧ Meta.get c6Doc.metadata "source" = some (MetaVal.str "s.md"))
    ∧ Meta.get c6Chunk.metadata "source" = some (MetaVal.str "s.md") :=
  ⟨⟨by decide, rfl, by decide, rfl⟩,
   section_metadata_inheritance c6Doc (MetaVal.str "P1") [c6Frag] 0 0 []
     "source" (MetaVal.str "s.md") (by decide) rfl (by decide) rfl
     c6Chunk (by decide)⟩

/-- Claim C7 (confirmed): within one parent document, the sections emitted
by the splitter carry `chunk_index` values forming exactly the contiguous
sequence `0..n-1` in emission order, and the later decoration pass of
`chunk_documents` (chunk id backfill, `batch_index`, `chunk_size`) leaves
`chunk_index` untouched. -/
theorem chunk_index_matches_emission_order (doc : Doc) (pid : MetaVal)
    (frags : List Doc) (ctr : Nat) (pcm : List (String × MetaVal)) :
    (splitOne doc pid frags 0 ctr pcm).1.map
        (fun c => Meta.get c.metadata "chunk_index")
      = (List.range frags.length).map (fun j => some (MetaVal.nat j))
    ∧ ∀ (cs : List Doc) (i ctr' : Nat),
        (addChunkMeta cs i ctr').1.map
            (fun c => Meta.get c.metadata "chunk_index")
          = cs.map (fun c => Meta.get c.metadata "chunk_index") := by
  constructor
  · rw [List.range_eq_range']
    exact splitOne_map_chunk_index doc pid frags 0 ctr pcm
  · intro cs i ctr'
    exact addChunkMeta_preserves cs "chunk_index" (by decide) i ctr'

/-- Claim C8 counterexample: aggregation invoked on a pipeline in which no
document has ever been loaded does NOT fail fast with a state-precondition
error — it completes and even returns a result (the empty parent list). -/
theorem aggregator_no_state_check_cex :
    emptyState.documents = []
    ∧ get_parent_documents emptyState [c8Hit] = .ok (some []) := ⟨rfl, rfl⟩

/-- Claim C8 (amended): only splitting checks the state precondition —
`chunk_documents` on an empty document set fails fast with `ValueError`
and performs no work, while `get_parent_documents` performs no such check
at all: its result is entirely independent of the loaded document set. -/
theorem state_check_split_only (split : String → List Doc) (st : Pipeline)
    (ctr : Nat) (h : st.documents = []) :
    chunk_documents split st ctr = .error "ValueError: 先加载文档"
    ∧ ∀ (docs cs : List Doc),
        get_parent_documents { st with documents := docs } cs
          = get_parent_documents st cs := by
  refine ⟨?_, fun docs cs => rfl⟩
  unfold chunk_documents
  rw [h]
  rfl

/-- Witness for `state_check_split_only` on the fresh empty pipeline. -/
theorem state_check_split_only_witness :
    emptyState.documents = []
    ∧ chunk_documents (fun _ => []) emptyState 0
        = .error "ValueError: 先加载文档"
    ∧ get_parent_documents { emptyState with documents := [c4Doc] } [c8Hit]
        = get_parent_documents emptyState [c8Hit] :=
  ⟨rfl, (state_check_split_only (fun _ => []) emptyState 0 rfl).1,
   (state_check_split_only (fun _ => []) emptyState 0 rfl).2 [c4Doc] [c8Hit]⟩

/-- Claim C9 (confirmed): difficulty inference assigns exactly the tier of
the longest run of consecutive star glyphs in the content, checked from 5
down to 1 (runs longer than 5 collapse into the hardest tier, since the
check is substring containment), and `难度未知` when no star glyph occurs
at all — in particular a five-star run beats an isolated single star. -/
theorem difficulty_longest_run_tier (doc : Doc) :
    Meta.get (enhance_metadata doc).metadata "difficulty"
      = some (MetaVal.str
          (claimDifficultyTier (maxStarRun doc.page_content.data))) := by
  simp only [enhance_metadata]
  rw [Meta.get_set_self, difficultyFromContent_eq]

/-- Claim C10 (confirmed): `_enhance_metadata` writes only the metadata
keys `category`, `dish_name` and `difficulty` — the page content and the
entry under every other key are left exactly as they were. -/
theorem enhance_metadata_frame (doc : Doc) (k : String)
    (hk : ¬(k = "category" ∨ k = "dish_name" ∨ k = "difficulty")) :
    Meta.get (enhance_metadata doc).metadata k = Meta.get doc.metadata k
    ∧ (enhance_metadata doc).page_content = doc.page_content := by
  push_neg at hk
  obtain ⟨h1, h2, h3⟩ := hk
  refine ⟨?_, rfl⟩
  simp only [enhance_metadata]
  rw [Meta.get_set_ne _ _ _ _ h3, Meta.get_set_ne _ _ _ _ h2,
      categoryLoop_get_ne _ _ _ _ h1, Meta.get_set_ne _ _ _ _ h1]

/-- Witness for `enhance_metadata_frame` at `c10Doc` and the key
`source`. -/
theorem enhance_metadata_frame_witness :
    ¬("source" = "category" ∨ "source" = "dish_name" ∨ "source" = "difficulty")
    ∧ Meta.get (enhance_metadata c10Doc).metadata "source"
        = Meta.get c10Doc.metadata "source"
    ∧ (enhance_metadata c10Doc).page_content = c10Doc.page_content :=
  ⟨by decide, (enhance_metadata_frame c10Doc "source" (by decide)).1,
   (enhance_metadata_frame c10Doc "source" (by decide)).2⟩
